import Mathlib

set_option maxRecDepth 4000

/-!
Shallow embedding of src/scripts/status-effects.js (class StatusEffects).

JavaScript objects used as string-keyed property tables are modelled as
insertion-ordered association lists (`JsObj`).  Property assignment keeps the
position of an existing key and overwrites its value; property reads return
`none` for an absent key (JS `undefined`).  A property key that is the JS
value `undefined` is coerced to the string "undefined", exactly as the JS
`obj[k]` / `k in obj` operators do.  Machine strings are Lean `String`
(a list of characters); the JS string order used by the sort comparator is
modelled codepoint-wise on lowercased characters.  External collaborators
(the effect interface lookup, the deterministic id helper, the localizer)
are parameters, since their code lives outside this repository.
-/

/-- JS object as an insertion-ordered association list. -/
abbrev JsObj (α : Type) := List (String × α)

/-- JS property read: `obj[key]`, `none` when absent. -/
def jsGet {α : Type} : JsObj α → String → Option α
  | [], _ => none
  | (k, v) :: rest, key => if k == key then some v else jsGet rest key

/-- JS property write: `obj[key] = v`; overwrites in place, else appends. -/
def jsSet {α : Type} : JsObj α → String → α → JsObj α
  | [], key, v => [(key, v)]
  | (k, w) :: rest, key, v =>
      if k == key then (k, v) :: rest else (k, w) :: jsSet rest key v

/-- JS `key in obj`. -/
def jsHas {α : Type} (o : JsObj α) (key : String) : Bool := (jsGet o key).isSome

/-- JS truthiness of a possibly-absent string (`undefined`, `null` and the
empty string are falsy). -/
def jsTruthyS : Option String → Bool
  | some s => !(s == "")
  | none => false

/-- JS strict equality `a === b` restricted to the case where each side is
either a string (`some`) or a non-string value such as `undefined` or an
object (`none`); the latter are never strictly equal to any string nor, in
the uses below, to each other. -/
def strictEqS : Option String → Option String → Bool
  | some x, some y => x == y
  | _, _ => false

/-- JS `list.includes(src)` for a list of strings and a `src` that is either
a string or a non-string object (which is never found). -/
def srcInList (l : List String) : Option String → Bool
  | some s => l.contains s
  | none => false

/-- Codepoint-wise lexicographic `<=` on strings, the order induced by the
comparator `nameA < nameB ? -1 : nameA > nameB ? 1 : 0`. -/
def lexLe : List Nat → List Nat → Bool
  | [], _ => true
  | _ :: _, [] => false
  | x :: xs, y :: ys => if x = y then lexLe xs ys else decide (x < y)

/-- The lowercased codepoints of a string: `s.toLowerCase()` as a sort key. -/
def lowerCodes (s : String) : List Nat := s.data.map (fun c => (Char.toLower c).toNat)

/-- Comparison of two values through a sort key. -/
def keyLe {α : Type} (key : α → List Nat) (a b : α) : Bool := lexLe (key a) (key b)

/-- Insert `x` into an already sorted list, after every element that compares
`<=` to it (the placement a stable sort gives equal elements). -/
def insertSorted {α : Type} (le : α → α → Bool) (x : α) : List α → List α
  | [] => [x]
  | y :: l => if le y x then y :: insertSorted le x l else x :: y :: l

/-- Left-to-right insertion pass. -/
def sortGo {α : Type} (le : α → α → Bool) : List α → List α → List α
  | [], acc => acc
  | x :: l, acc => sortGo le l (insertSorted le x acc)

/-- `Array.prototype.sort` with a consistent comparator: ECMA-262 requires a
stable sort, and every stable sort agrees with stable insertion sort. -/
def jsStableSort {α : Type} (le : α → α → Bool) (l : List α) : List α := sortGo le l []

/-- `list.isPrefixOf`-style check: JS `s.startsWith(p)`. -/
def jsStartsWith (s p : String) : Bool := p.data.isPrefixOf s.data

/-- Replace the first occurrence of `p` in `s` (JS `s.replace(p, r)` with a
string pattern replaces only the first occurrence). -/
def rfAux (p r : List Char) : List Char → List Char
  | [] => if p.isPrefixOf ([] : List Char) then r else []
  | c :: cs =>
      if p.isPrefixOf (c :: cs) then r ++ (c :: cs).drop p.length
      else c :: rfAux p r cs

/-- JS `s.replace(p, r)` for a string pattern `p`. -/
def jsReplaceFirst (s p r : String) : String := ⟨rfAux p.data r.data s.data⟩

/-! ## Settings and the fetcher (`_fetchStatusEffects`, `initialize`) -/

/-- The user-configured settings read by the module. -/
structure Settings where
  modifyStatusEffects : String
  statusEffectNames : List String
  statusEffectsSortOrder : String
deriving DecidableEq

/-- An effect object returned by `game.dfreds.effectInterface.findEffectByName`:
its display name together with the field list its `toObject()` serialization
produces, in order. -/
structure EffectLike where
  name : String
  fields : List (String × String)
deriving DecidableEq

/-- Evaluation of a JS object literal: starting from an initial object, apply
the given properties in order, later entries overwriting earlier ones. -/
def objFold (init : JsObj String) (ps : List (String × String)) : JsObj String :=
  ps.foldl (fun o kv => jsSet o kv.1 kv.2) init

/-- The object literal `{ id: getId(effect.name), ...effect.toObject() }`:
the explicit `id` property is written first, then every serialized field is
spread over it in order. -/
def buildDef (getId : String → String) (e : EffectLike) : JsObj String :=
  objFold (jsSet [] "id" (getId e.name)) e.fields

/-- The last value written for key `k` by a property list, if any. -/
def lastField : List (String × String) → String → Option String
  | [], _ => none
  | (k1, v) :: ps, k =>
      match lastField ps k with
      | some w => some w
      | none => if k1 == k then some v else none

/-- The sort key of a built definition: `a.name.toLowerCase()` (the `name`
property of the merged object; an absent name is keyed as the empty string,
where the JS source would fault). -/
def defKey (d : JsObj String) : List Nat := lowerCodes ((jsGet d "name").getD "")

/-- `_fetchStatusEffects`: map the configured names through the external
by-name finder, drop the misses, build each definition object, and sort
alphabetically when so configured. -/
def fetchStatusEffects (getId : String → String) (lookup : String → Option EffectLike)
    (s : Settings) : List (JsObj String) :=
  let statusEffects := (s.statusEffectNames.filterMap lookup).map (buildDef getId)
  if s.statusEffectsSortOrder == "alphabetical" then
    jsStableSort (keyLe defKey) statusEffects
  else statusEffects

/-- `initialize` (renamed here): replace, extend or keep `CONFIG.statusEffects`
according to the configured mode. -/
def initStatusEffects (getId : String → String) (lookup : String → Option EffectLike)
    (s : Settings) (catalog : List (JsObj String)) : List (JsObj String) :=
  if s.modifyStatusEffects == "replace" then fetchStatusEffects getId lookup s
  else if s.modifyStatusEffects == "add" then catalog ++ fetchStatusEffects getId lookup s
  else catalog

/-! ## The toggle interceptor (`onToggleEffect`) -/

/-- The originating UI event, reduced to the datum the code reads:
`event.currentTarget.dataset.statusId`. -/
structure TEvent where
  statusId : String
deriving DecidableEq

/-- The optional second argument: a JS object whose `overlay` property may be
absent (`none`) or a boolean. -/
structure OverlayOpts where
  overlay : Option Bool
deriving DecidableEq

/-- The rest-argument list: the event followed by the remaining arguments,
each of which may itself be `undefined` or an options object. -/
structure ToggleArgs where
  event : TEvent
  rest : List (Option OverlayOpts)
deriving DecidableEq

/-- The token, reduced to `token.actor.uuid`. -/
structure TokenRef where
  actorUuid : String
deriving DecidableEq

/-- The reserved marker `"Convenient Effect: "`. -/
def ceMarker : String := "Convenient Effect: "

/-- `args.length > 1 && args[1]?.overlay` as a truth value. -/
def overlayArg (args : ToggleArgs) : Bool :=
  match args.rest with
  | [] => false
  | none :: _ => false
  | some o :: _ => o.overlay.getD false

/-- What a call to `onToggleEffect` does: either it suppresses the event and
calls `game.dfreds.effectInterface.toggleEffect(effectName, {overlay, uuids})`
without calling the wrapper, or it calls only the wrapper with the original
arguments. -/
inductive ToggleOutcome where
  | intercepted (defaultPrevented propagationStopped : Bool)
      (effectName : String) (overlay : Bool) (uuids : List String)
  | delegated (args : ToggleArgs)
deriving DecidableEq

/-- `onToggleEffect({token, wrapper, args})`. -/
def onToggleEffect (token : TokenRef) (args : ToggleArgs) : ToggleOutcome :=
  let statusEffectId := args.event.statusId
  if jsStartsWith statusEffectId ceMarker then
    ToggleOutcome.intercepted true true
      (jsReplaceFirst statusEffectId ceMarker "")
      (overlayArg args)
      [token.actorUuid]
  else
    ToggleOutcome.delegated args

/-! ## The choice-list builder (`getStatusEffectChoices`) -/

/-- `token.document`, reduced to the data the code reads: the legacy effect
icon list `doc.effects` (a list of icon path strings) and `doc.overlayEffect`
(an icon path string, or absent). -/
structure TokenDoc where
  effects : List String
  overlayEffect : Option String
deriving DecidableEq

/-- One of the actor's active effects: its declared status identifiers and the
truth value of `effect.getFlag('core', 'overlay')`. -/
structure ActorEffect where
  statuses : List String
  overlayFlag : Bool
deriving DecidableEq

/-- The actor, reduced to its live effect list. -/
structure ActorRef where
  effects : List ActorEffect
deriving DecidableEq

/-- The token passed to `getStatusEffectChoices`. -/
structure TokenObj where
  document : TokenDoc
  actor : Option ActorRef
deriving DecidableEq

/-- The per-id record `{ id, overlay }` stored in the `statuses` reduce. -/
structure StatusRec where
  id : String
  overlay : Bool
deriving DecidableEq

/-- The `statuses` reduce over `actor.effects`: for each active effect and
each of its declared status ids, write `{id, overlay}`; later writes
overwrite earlier ones. -/
def buildStatuses (effs : List ActorEffect) : JsObj StatusRec :=
  effs.foldl
    (fun obj eff =>
      eff.statuses.foldl (fun o i => jsSet o i ⟨i, eff.overlayFlag⟩) obj)
    []

/-- `token.actor || null` followed by the reduce; an absent actor yields the
empty map. -/
def actorStatuses (tok : TokenObj) : JsObj StatusRec :=
  match tok.actor with
  | some a => buildStatuses a.effects
  | none => []

/-- A candidate of the fold: an effect-definition object from
`CONFIG.statusEffects`, or a raw icon path string from the token document. -/
inductive Candidate where
  | obj (fields : JsObj String)
  | raw (s : String)
deriving DecidableEq

/-- `e.id`: objects may carry an `id` property; a raw string has none. -/
def candId : Candidate → Option String
  | Candidate.obj o => jsGet o "id"
  | Candidate.raw _ => none

/-- `e.name`. -/
def candName : Candidate → Option String
  | Candidate.obj o => jsGet o "name"
  | Candidate.raw _ => none

/-- `e.icon ?? e`: the icon property when present (even empty), otherwise the
value `e` itself — the whole object (`none`, never equal to a string) for an
object candidate, the string itself for a raw candidate. -/
def candSrc : Candidate → Option String
  | Candidate.obj o => jsGet o "icon"
  | Candidate.raw s => some s

/-- The JS property key used for `statuses[e.id]`, `id in obj` and
`obj[id] = ...`: the id string, or the coercion of `undefined` to the string
"undefined" when the candidate has no id. -/
def keyOf (e : Candidate) : String := (candId e).getD "undefined"

/-- The value stored in the returned mapping. -/
structure StatusChoice where
  id : String
  title : Option String
  src : Option String
  isActive : Bool
  isOverlay : Bool
  cssClass : String
deriving DecidableEq

/-- The body of the fold for one candidate `e` (the object construction on
lines 125-135 of the source). -/
def mkChoice (localize : String → String) (statuses : JsObj StatusRec)
    (doc : TokenDoc) (e : Candidate) : StatusChoice :=
  let src := candSrc e
  let status := jsGet statuses (keyOf e)
  let isActive :=
    (match status with
      | some r => !(r.id == "")
      | none => false) || srcInList doc.effects src
  let isOverlay :=
    (match status with
      | some r => r.overlay
      | none => false) || strictEqS doc.overlayEffect src
  { id := (candId e).getD ""
    title :=
      match candName e with
      | some n => if n == "" then none else some (localize n)
      | none => none
    src := src
    isActive := isActive
    isOverlay := isOverlay
    cssClass :=
      String.intercalate " "
        ((if isActive then ["active"] else []) ++ (if isOverlay then ["overlay"] else [])) }

/-- The candidate list: `CONFIG.statusEffects.concat(tokenEffects)` where
`tokenEffects` is a clone of `doc.effects` with `doc.overlayEffect` pushed
when truthy. -/
def candidatesOf (catalog : List (JsObj String)) (doc : TokenDoc) : List Candidate :=
  catalog.map Candidate.obj ++ doc.effects.map Candidate.raw ++
    (if jsTruthyS doc.overlayEffect then [Candidate.raw (doc.overlayEffect.getD "")] else [])

/-- One step of the reduce: skip the candidate when its key is already
present, otherwise store its choice. -/
def choiceStep (localize : String → String) (statuses : JsObj StatusRec)
    (doc : TokenDoc) (obj : JsObj StatusChoice) (e : Candidate) : JsObj StatusChoice :=
  let id := keyOf e
  if jsHas obj id then obj else jsSet obj id (mkChoice localize statuses doc e)

/-- The result of `getStatusEffectChoices`: delegated to the wrapper, or the
built mapping. -/
inductive ChoicesResult where
  | delegated
  | built (choices : JsObj StatusChoice)
deriving DecidableEq

/-- The ambient state read by `getStatusEffectChoices`: the configured mode,
the global catalog and the localization service. -/
structure ChoicesEnv where
  modifyStatusEffects : String
  catalog : List (JsObj String)
  localize : String → String

/-- `getStatusEffectChoices({token, wrapper, args})`. -/
def getStatusEffectChoices (env : ChoicesEnv) (tok : TokenObj) : ChoicesResult :=
  if env.modifyStatusEffects == "none" then ChoicesResult.delegated
  else
    let doc := tok.document
    let statuses := actorStatuses tok
    ChoicesResult.built
      ((candidatesOf env.catalog doc).foldl (choiceStep env.localize statuses doc) [])

/-- Read a key out of a built result. -/
def builtGet : ChoicesResult → String → Option StatusChoice
  | ChoicesResult.built o, k => jsGet o k
  | ChoicesResult.delegated, _ => none

/-- First candidate whose fold key equals `k`. -/
def firstWithKey (k : String) : List Candidate → Option Candidate
  | [] => none
  | e :: l => if keyOf e == k then some e else firstWithKey k l

/-- Last actor effect whose declared statuses contain `i`. -/
def lastStatusEff (i : String) : List ActorEffect → Option ActorEffect
  | [] => none
  | e :: l =>
      match lastStatusEff i l with
      | some r => some r
      | none => if e.statuses.contains i then some e else none

/-! ## The icon refresher (`refreshStatusIcons`) -/

/-- An icon element of the HUD status-effect container: its
`dataset.statusId` and the presence of its two presentation classes. -/
structure IconEl where
  statusId : String
  overlayClass : Bool
  activeClass : Bool
deriving DecidableEq

/-- `refreshStatusIcons(tokenHud)`: `choices` is the mapping produced by the
HUD's own `_getStatusEffectChoices` entry point (which applies
`getStatusEffectChoices` above); each icon's classes are toggled to the
looked-up status, both defaulting to absent when the lookup misses. -/
def refreshStatusIcons (choices : JsObj StatusChoice) (icons : List IconEl) : List IconEl :=
  icons.map (fun img =>
    let status := jsGet choices img.statusId
    { img with
      overlayClass := match status with | some st => st.isOverlay | none => false
      activeClass := match status with | some st => st.isActive | none => false })

/-! ## Concrete inputs used by witnesses and counterexamples -/

/-- A concrete deterministic-id helper for examples. -/
def getIdC : String → String := fun n => "ce-" ++ n

/-- A concrete external finder resolving two effect names. -/
def lookupBA : String → Option EffectLike := fun n =>
  if n == "Blinded" then some ⟨"Blinded", [("name", "Blinded")]⟩
  else if n == "Ablaze" then some ⟨"Ablaze", [("name", "Ablaze")]⟩
  else none

/-- Toggle arguments carrying the reserved marker and an explicit overlay. -/
def argsCE : ToggleArgs := ⟨⟨"Convenient Effect: Blinded"⟩, [some ⟨some true⟩]⟩

/-- Toggle arguments for a plain core status id. -/
def argsDead : ToggleArgs := ⟨⟨"dead"⟩, []⟩

/-- Environment for the blinded choice-derivation example. -/
def envB : ChoicesEnv :=
  ⟨"replace", [[("id", "blinded"), ("name", "EFFECT.Blinded"), ("icon", "icons/svg/blind.svg")]],
    fun s => s⟩

/-- Token whose actor has one active effect declaring status id "blinded"
with the overlay flag set. -/
def tokB : TokenObj := ⟨⟨[], none⟩, some ⟨[⟨["blinded"], true⟩]⟩⟩

/-- The blinded candidate itself. -/
def candB : Candidate :=
  Candidate.obj [("id", "blinded"), ("name", "EFFECT.Blinded"), ("icon", "icons/svg/blind.svg")]

/-- Environment for the C3 counterexample: one catalog entry whose id is the
empty string. -/
def envC3 : ChoicesEnv := ⟨"replace", [[("id", "")]], fun s => s⟩

/-- Token whose actor declares the empty-string status id. -/
def tokC3 : TokenObj := ⟨⟨[], none⟩, some ⟨[⟨[""], false⟩]⟩⟩

/-- Environment for the C4 counterexample: an id-less catalog entry followed
by two entries sharing the id "undefined". -/
def envC4 : ChoicesEnv :=
  ⟨"replace",
    [[("name", "NoId")], [("id", "undefined"), ("icon", "a.png")],
      [("id", "undefined"), ("icon", "b.png")]],
    fun s => s⟩

/-- A token with no actor and no token effects. -/
def tokPlain : TokenObj := ⟨⟨[], none⟩, none⟩

/-- Environment for the C4 witness: two catalog entries sharing id "blinded"
with different icons. -/
def envDup : ChoicesEnv :=
  ⟨"replace", [[("id", "blinded"), ("icon", "a.png")], [("id", "blinded"), ("icon", "b.png")]],
    fun s => s⟩

/-- Environment for the C5 claim: empty catalog. -/
def envC5 : ChoicesEnv := ⟨"replace", [], fun s => s⟩

/-- Token carrying one legacy token-document effect icon path. -/
def tokC5 : TokenObj := ⟨⟨["p.png"], none⟩, none⟩

/-- Settings for the C7 counterexample: the same effect name configured twice. -/
def sC7 : Settings := ⟨"replace", ["Blinded", "Blinded"], "unsorted"⟩

/-- An effect whose serialization itself carries an `id` field. -/
def effWithId : EffectLike := ⟨"Blinded", [("id", "XYZ"), ("name", "Blinded")]⟩

/-- Choice mapping used by the icon-refresh witness. -/
def choices9 : JsObj StatusChoice :=
  [("blinded", ⟨"blinded", none, some "a.png", true, true, "active overlay"⟩)]

/-- Icons used by the icon-refresh witness: one matching, one not. -/
def icons9 : List IconEl := [⟨"blinded", false, false⟩, ⟨"dead", true, true⟩]

/-- Token for the C10 witness: two actor effects declaring the same status id
with different overlay flags. -/
def tok10 : TokenObj := ⟨⟨[], none⟩, some ⟨[⟨["blinded"], false⟩, ⟨["blinded"], true⟩]⟩⟩

/-! ## Basic lemmas about the JS-object model -/

theorem jsGet_jsSet_self {α : Type} (o : JsObj α) (k : String) (v : α) :
    jsGet (jsSet o k v) k = some v := by
  induction o with
  | nil => simp [jsSet, jsGet]
  | cons kv rest ih =>
      obtain ⟨k1, w⟩ := kv
      by_cases h : k1 == k
      · simp [jsSet, jsGet, h]
      · simp only [jsSet, jsGet, h, Bool.false_eq_true, if_false]
        exact ih

theorem jsGet_jsSet_ne {α : Type} (o : JsObj α) (k k2 : String) (v : α)
    (h : k ≠ k2) : jsGet (jsSet o k v) k2 = jsGet o k2 := by
  induction o with
  | nil => simp [jsSet, jsGet, beq_iff_eq, h]
  | cons kv rest ih =>
      obtain ⟨k1, w⟩ := kv
      by_cases h1 : k1 == k
      · have hk : k1 = k := by simpa [beq_iff_eq] using h1
        subst hk
        simp [jsSet, jsGet, beq_iff_eq, h]
      · simp only [jsSet, jsGet, h1, Bool.false_eq_true, if_false]
        by_cases h2 : k1 == k2 <;> simp [h2, ih]

/-! ## String helper lemmas -/

theorem rfAux_of_isPrefixOf (p r s : List Char) (h : p.isPrefixOf s = true) :
    rfAux p r s = r ++ s.drop p.length := by
  cases s with
  | nil => simp [rfAux, h]
  | cons c cs => simp [rfAux, h]

theorem jsReplaceFirst_of_startsWith (s p : String) (h : jsStartsWith s p = true) :
    (jsReplaceFirst s p "").data = s.data.drop p.data.length ∧
    p.data ++ s.data.drop p.data.length = s.data := by
  have h2 : p.data.isPrefixOf s.data = true := h
  have hp : p.data <+: s.data := List.isPrefixOf_iff_prefix.mp h2
  have htake : p.data = s.data.take p.data.length := List.prefix_iff_eq_take.mp hp
  constructor
  · show (String.mk (rfAux p.data "".data s.data)).data = s.data.drop p.data.length
    rw [rfAux_of_isPrefixOf p.data "".data s.data h2]
    rfl
  · conv_rhs => rw [← List.take_append_drop p.data.length s.data]
    rw [← htake]

/-- Claim C1: a toggle event whose dataset status identifier starts with the
reserved marker "Convenient Effect: " suppresses the default action and the
propagation of the event, invokes the external toggleEffect with the bare
name (the identifier with the marker stripped off the front), an overlay
flag that is true exactly when a second argument was supplied carrying
overlay explicitly set to true, and the actor uuid of the token as the sole
target, without calling the original wrapper; an identifier lacking the
marker invokes only the original wrapper with the unmodified arguments. -/
theorem c1_toggle_dispatch (token : TokenRef) (args : ToggleArgs) :
    (jsStartsWith args.event.statusId ceMarker = true →
      onToggleEffect token args =
        ToggleOutcome.intercepted true true
          (jsReplaceFirst args.event.statusId ceMarker "") (overlayArg args)
          [token.actorUuid] ∧
      ceMarker.data ++ (jsReplaceFirst args.event.statusId ceMarker "").data =
        args.event.statusId.data ∧
      (overlayArg args = true ↔
        ∃ o : OverlayOpts, args.rest.head? = some (some o) ∧ o.overlay = some true)) ∧
    (jsStartsWith args.event.statusId ceMarker = false →
      onToggleEffect token args = ToggleOutcome.delegated args) := by
  constructor
  · intro h
    refine ⟨by simp [onToggleEffect, h], ?_, ?_⟩
    · have := jsReplaceFirst_of_startsWith args.event.statusId ceMarker h
      rw [this.1]
      exact this.2
    · unfold overlayArg
      match hr : args.rest with
      | [] => simp
      | none :: _ => simp
      | some o :: _ =>
          simp only [List.head?_cons, Option.some.injEq]
          constructor
          · intro hb
            refine ⟨o, rfl, ?_⟩
            match ho : o.overlay with
            | none => rw [ho] at hb; simp at hb
            | some b => rw [ho] at hb; simp at hb; rw [hb]
          · rintro ⟨o2, ho2, hov⟩
            have : o2 = o := by simpa using ho2.symm
            subst this
            simp [hov]
  · intro h
    simp [onToggleEffect, h]

/-- Witness for C1 at the concrete events of the spec: the identifier
"Convenient Effect: Blinded" with an explicit overlay option is intercepted
with bare name "Blinded", overlay true and the actor uuid as sole target,
and the identifier "dead" is fully delegated. -/
theorem c1_witness :
    onToggleEffect ⟨"Actor.abc"⟩ argsCE =
      ToggleOutcome.intercepted true true "Blinded" true ["Actor.abc"] ∧
    onToggleEffect ⟨"Actor.abc"⟩ argsDead = ToggleOutcome.delegated argsDead := by
  constructor
  · have h := (c1_toggle_dispatch ⟨"Actor.abc"⟩ argsCE).1 (by decide)
    exact h.1.trans (by decide)
  · exact (c1_toggle_dispatch ⟨"Actor.abc"⟩ argsDead).2 (by decide)

/-- Claim C2: after initialization, mode "none" leaves the host catalog
untouched, mode "replace" makes it exactly the fetched and normalized
sequence, and mode "add" makes it the original entries followed by that
sequence, order preserved. -/
theorem c2_init_modes (getId : String → String) (lookup : String → Option EffectLike)
    (s : Settings) (catalog : List (JsObj String)) :
    (s.modifyStatusEffects = "none" → initStatusEffects getId lookup s catalog = catalog) ∧
    (s.modifyStatusEffects = "replace" →
      initStatusEffects getId lookup s catalog = fetchStatusEffects getId lookup s) ∧
    (s.modifyStatusEffects = "add" →
      initStatusEffects getId lookup s catalog = catalog ++ fetchStatusEffects getId lookup s) := by
  refine ⟨fun h => ?_, fun h => ?_, fun h => ?_⟩ <;>
    simp [initStatusEffects, h]

/-- Witness for C2: the three modes evaluated at concrete settings and a
concrete one-entry catalog. -/
theorem c2_witness :
    initStatusEffects getIdC lookupBA ⟨"none", ["Blinded"], "unsorted"⟩ [[("id", "x")]] =
      [[("id", "x")]] ∧
    initStatusEffects getIdC lookupBA ⟨"replace", ["Blinded"], "unsorted"⟩ [[("id", "x")]] =
      fetchStatusEffects getIdC lookupBA ⟨"replace", ["Blinded"], "unsorted"⟩ ∧
    initStatusEffects getIdC lookupBA ⟨"add", ["Blinded"], "unsorted"⟩ [[("id", "x")]] =
      [[("id", "x")]] ++ fetchStatusEffects getIdC lookupBA ⟨"add", ["Blinded"], "unsorted"⟩ :=
  ⟨(c2_init_modes getIdC lookupBA ⟨"none", ["Blinded"], "unsorted"⟩ [[("id", "x")]]).1 rfl,
    (c2_init_modes getIdC lookupBA ⟨"replace", ["Blinded"], "unsorted"⟩ [[("id", "x")]]).2.1 rfl,
    (c2_init_modes getIdC lookupBA ⟨"add", ["Blinded"], "unsorted"⟩ [[("id", "x")]]).2.2 rfl⟩

/-! ## Lemmas about the stable sort -/

theorem lexLe_refl (l : List Nat) : lexLe l l = true := by
  induction l with
  | nil => rfl
  | cons x xs ih => simp [lexLe, ih]

theorem lexLe_total (a b : List Nat) : lexLe a b = true ∨ lexLe b a = true := by
  induction a generalizing b with
  | nil => left; rfl
  | cons x xs ih =>
      cases b with
      | nil => right; rfl
      | cons y ys =>
          by_cases hxy : x = y
          · subst hxy
            simpa [lexLe] using ih ys
          · rcases Nat.lt_trichotomy x y with h | h | h
            · left; simp [lexLe, hxy, h]
            · exact absurd h hxy
            · right
              have hyx : y ≠ x := fun hh => hxy hh.symm
              simp [lexLe, hyx, h]

theorem lexLe_trans (a b c : List Nat) (hab : lexLe a b = true) (hbc : lexLe b c = true) :
    lexLe a c = true := by
  induction a generalizing b c with
  | nil => rfl
  | cons x xs ih =>
      cases b with
      | nil => simp [lexLe] at hab
      | cons y ys =>
          cases c with
          | nil => simp [lexLe] at hbc
          | cons z zs =>
              by_cases hxy : x = y <;> by_cases hyz : y = z
              · subst hxy; subst hyz
                simp only [lexLe, if_pos rfl] at hab hbc ⊢
                exact ih ys zs hab hbc
              · subst hxy
                simp only [lexLe, if_pos rfl] at hab
                simp only [lexLe, hyz, if_neg, if_false] at hbc
                simp [lexLe, hyz, decide_eq_true_eq] at hbc ⊢
                exact hbc
              · subst hyz
                simp [lexLe, hxy, decide_eq_true_eq] at hab ⊢
                exact hab
              · simp [lexLe, hxy, decide_eq_true_eq] at hab
                simp [lexLe, hyz, decide_eq_true_eq] at hbc
                have hxz : x < z := Nat.lt_trans hab hbc
                have : x ≠ z := Nat.ne_of_lt hxz
                simp [lexLe, this, decide_eq_true_eq]
                exact hxz

theorem insertSorted_perm {α : Type} (le : α → α → Bool) (x : α) (l : List α) :
    List.Perm (insertSorted le x l) (x :: l) := by
  induction l with
  | nil => simp [insertSorted]
  | cons y l ih =>
      by_cases h : le y x
      · simp only [insertSorted, h, if_true]
        exact (ih.cons y).trans (List.Perm.swap x y l)
      · simp [insertSorted, h]

theorem insertSorted_pairwise {α : Type} (key : α → List Nat) (x : α) (l : List α)
    (hl : List.Pairwise (fun a b => keyLe key a b = true) l) :
    List.Pairwise (fun a b => keyLe key a b = true) (insertSorted (keyLe key) x l) := by
  induction l with
  | nil => simp [insertSorted]
  | cons y l ih =>
      rcases List.pairwise_cons.mp hl with ⟨hy, hl2⟩
      by_cases h : keyLe key y x
      · simp only [insertSorted, h, if_true]
        refine List.pairwise_cons.mpr ⟨?_, ih hl2⟩
        intro z hz
        rcases List.mem_cons.mp ((insertSorted_perm (keyLe key) x l).mem_iff.mp hz) with hz1 | hz2
        · subst hz1; exact h
        · exact hy z hz2
      · have hxy : keyLe key x y = true := by
          rcases lexLe_total (key x) (key y) with h1 | h1
          · exact h1
          · exact absurd h1 h
        simp only [insertSorted, h, if_false]
        refine List.pairwise_cons.mpr ⟨?_, hl⟩
        intro z hz
        rcases List.mem_cons.mp hz with hz1 | hz2
        · subst hz1; exact hxy
        · exact lexLe_trans _ _ _ hxy (hy z hz2)

theorem insertSorted_filter {α : Type} (key : α → List Nat) (k : List Nat) (x : α)
    (l : List α) (hl : List.Pairwise (fun a b => keyLe key a b = true) l) :
    List.filter (fun a => key a == k) (insertSorted (keyLe key) x l) =
      List.filter (fun a => key a == k) l ++ (if key x == k then [x] else []) := by
  induction l with
  | nil => by_cases h : key x == k <;> simp [insertSorted, List.filter, h]
  | cons y l ih =>
      rcases List.pairwise_cons.mp hl with ⟨hy, hl2⟩
      by_cases h : keyLe key y x
      · simp only [insertSorted, h, if_true]
        by_cases hyk : key y == k <;>
          simp [List.filter, hyk, ih hl2]
      · simp only [insertSorted, h, if_false]
        by_cases hxk : key x == k
        · have hkx : key x = k := by simpa [beq_iff_eq] using hxk
          have hnone : ∀ z ∈ y :: l, (key z == k) = false := by
            intro z hz
            rcases List.mem_cons.mp hz with hz1 | hz2
            · subst hz1
              by_cases hzz : key z == k
              · exfalso
                have : key z = k := by simpa [beq_iff_eq] using hzz
                have : keyLe key z x = true := by
                  unfold keyLe; rw [this, hkx]; exact lexLe_refl k
                exact h this
              · simpa using hzz
            · by_cases hzz : key z == k
              · exfalso
                have hzk : key z = k := by simpa [beq_iff_eq] using hzz
                have : keyLe key y x = true := by
                  have hyz := hy z hz2
                  unfold keyLe at hyz ⊢
                  rw [hkx, ← hzk]
                  exact hyz
                exact h this
              · simpa using hzz
          have hfil : List.filter (fun a => key a == k) (y :: l) = [] :=
            List.filter_eq_nil_iff.mpr (by
              intro a ha
              simp [hnone a ha])
          simp [List.filter_cons, hxk, hfil]
        · simp [List.filter, hxk]

theorem sortGo_perm {α : Type} (le : α → α → Bool) (l acc : List α) :
    List.Perm (sortGo le l acc) (acc ++ l) := by
  induction l generalizing acc with
  | nil => simp [sortGo]
  | cons x l ih =>
      have h1 : List.Perm (sortGo le l (insertSorted le x acc)) (insertSorted le x acc ++ l) :=
        ih _
      have h2 : List.Perm (insertSorted le x acc ++ l) ((x :: acc) ++ l) :=
        List.Perm.append_right l (insertSorted_perm le x acc)
      have h3 : List.Perm ((x :: acc) ++ l) (acc ++ x :: l) := by
        simpa using List.perm_middle.symm
      exact (h1.trans h2).trans h3

theorem sortGo_pairwise {α : Type} (key : α → List Nat) (l acc : List α)
    (hacc : List.Pairwise (fun a b => keyLe key a b = true) acc) :
    List.Pairwise (fun a b => keyLe key a b = true) (sortGo (keyLe key) l acc) := by
  induction l generalizing acc with
  | nil => simpa [sortGo] using hacc
  | cons x l ih =>
      exact ih (insertSorted (keyLe key) x acc) (insertSorted_pairwise key x acc hacc)

theorem sortGo_filter {α : Type} (key : α → List Nat) (k : List Nat) (l acc : List α)
    (hacc : List.Pairwise (fun a b => keyLe key a b = true) acc) :
    List.filter (fun a => key a == k) (sortGo (keyLe key) l acc) =
      List.filter (fun a => key a == k) acc ++ List.filter (fun a => key a == k) l := by
  induction l generalizing acc with
  | nil => simp [sortGo]
  | cons x l ih =>
      have h1 := ih (insertSorted (keyLe key) x acc) (insertSorted_pairwise key x acc hacc)
      rw [sortGo, h1, insertSorted_filter key k x acc hacc, List.filter_cons,
        List.append_assoc]
      by_cases hxk : key x == k <;> simp [hxk]

theorem jsStableSort_perm {α : Type} (le : α → α → Bool) (l : List α) :
    List.Perm (jsStableSort le l) l := by
  simpa [jsStableSort] using sortGo_perm le l []

theorem jsStableSort_pairwise {α : Type} (key : α → List Nat) (l : List α) :
    List.Pairwise (fun a b => keyLe key a b = true) (jsStableSort (keyLe key) l) :=
  sortGo_pairwise key l [] List.Pairwise.nil

theorem jsStableSort_filter {α : Type} (key : α → List Nat) (k : List Nat) (l : List α) :
    List.filter (fun a => key a == k) (jsStableSort (keyLe key) l) =
      List.filter (fun a => key a == k) l := by
  simpa [jsStableSort] using sortGo_filter key k l [] List.Pairwise.nil

/-- Claim C8: with sort order "alphabetical" the fetcher returns the resolved
effects sorted case-insensitively by name — the output is a permutation of
the lookup-order list, consecutive entries are ordered by the lowercased
name key, and for every key value the entries carrying it keep their
original relative order (stability); with sort order "unsorted" the lookup
order is preserved unchanged.  At the concrete names ["Blinded", "Ablaze"]
the alphabetical order is ["Ablaze", "Blinded"] and the unsorted order is
["Blinded", "Ablaze"]. -/
theorem c8_sort_order (getId : String → String) (lookup : String → Option EffectLike)
    (names : List String) (mode : String) :
    List.Pairwise (fun a b => keyLe defKey a b = true)
      (fetchStatusEffects getId lookup ⟨mode, names, "alphabetical"⟩) ∧
    List.Perm (fetchStatusEffects getId lookup ⟨mode, names, "alphabetical"⟩)
      ((names.filterMap lookup).map (buildDef getId)) ∧
    (∀ k : List Nat,
      List.filter (fun d => defKey d == k)
          (fetchStatusEffects getId lookup ⟨mode, names, "alphabetical"⟩) =
        List.filter (fun d => defKey d == k) ((names.filterMap lookup).map (buildDef getId))) ∧
    fetchStatusEffects getId lookup ⟨mode, names, "unsorted"⟩ =
      (names.filterMap lookup).map (buildDef getId) ∧
    (fetchStatusEffects getIdC lookupBA ⟨"replace", ["Blinded", "Ablaze"], "alphabetical"⟩).map
        (fun d => jsGet d "name") = [some "Ablaze", some "Blinded"] ∧
    (fetchStatusEffects getIdC lookupBA ⟨"replace", ["Blinded", "Ablaze"], "unsorted"⟩).map
        (fun d => jsGet d "name") = [some "Blinded", some "Ablaze"] := by
  have halpha : fetchStatusEffects getId lookup ⟨mode, names, "alphabetical"⟩ =
      jsStableSort (keyLe defKey) ((names.filterMap lookup).map (buildDef getId)) := rfl
  have hunsorted : fetchStatusEffects getId lookup ⟨mode, names, "unsorted"⟩ =
      (names.filterMap lookup).map (buildDef getId) := rfl
  refine ⟨?_, ?_, ?_, hunsorted, by decide, by decide⟩
  · rw [halpha]; exact jsStableSort_pairwise defKey _
  · rw [halpha]; exact jsStableSort_perm _ _
  · intro k; rw [halpha]; exact jsStableSort_filter defKey k _

/-! ## Lemmas about object-literal evaluation -/

theorem jsGet_objFold (ps : List (String × String)) (init : JsObj String) (k : String) :
    jsGet (objFold init ps) k =
      match lastField ps k with
      | some w => some w
      | none => jsGet init k := by
  induction ps generalizing init with
  | nil => simp [objFold, lastField]
  | cons kv ps ih =>
      obtain ⟨k1, v⟩ := kv
      show jsGet (objFold (jsSet init k1 v) ps) k = _
      rw [ih (jsSet init k1 v)]
      cases hl : lastField ps k with
      | some w => simp [lastField, hl]
      | none =>
          by_cases hk : k1 == k
          · have : k1 = k := by simpa [beq_iff_eq] using hk
            subst this
            simp [lastField, hl, jsGet_jsSet_self]
          · have hne : k1 ≠ k := by simpa [beq_iff_eq] using hk
            simp [lastField, hl, hk, jsGet_jsSet_ne init k1 k v hne]

/-- Claim C6 (amended): the produced effect definition is the object literal
`{id: derived-id(name), ...serialized-fields}` — the lookup of any key
returns the last serialized value for that key when one exists, and the
serialized fields take precedence on every collision, including the `id`
key itself; the derived deterministic id survives only as the default when
the serialization carries no `id` field. -/
theorem c6_merge_semantics (getId : String → String) (e : EffectLike) (k : String) :
    jsGet (buildDef getId e) k =
      match lastField e.fields k with
      | some w => some w
      | none => if k = "id" then some (getId e.name) else none := by
  unfold buildDef
  rw [jsGet_objFold]
  cases hl : lastField e.fields k with
  | some w => rfl
  | none =>
      by_cases hk : k = "id"
      · subst hk
        simp [jsGet_jsSet_self]
      · have h2 : ("id" : String) ≠ k := fun hh => hk hh.symm
        simp [hk, jsGet_jsSet_ne [] "id" k _ h2, jsGet, h2]

/-- Counterexample to claim C6 as stated: when the serialized fields of the
effect themselves contain an `id` key, the spread overwrites the derived
id instead of yielding to it — for the effect named "Blinded" whose
serialization carries `id: "XYZ"`, the built definition has id "XYZ" while
the derived id is "ce-Blinded". -/
theorem c6_counterexample :
    jsGet (buildDef getIdC effWithId) "id" = some "XYZ" ∧
    getIdC effWithId.name = "ce-Blinded" ∧
    jsGet (buildDef getIdC effWithId) "id" ≠ some (getIdC effWithId.name) := by
  refine ⟨by decide, by decide, by decide⟩

/-- Claim C7 (amended): initialization performs no deduplication — for every
mode and every configured name list the resulting catalog keeps one entry
per resolved name (after the original entries in mode "add"), duplicate ids
included, so the catalog length is fully determined by the counts alone. -/
theorem c7_no_discard (getId : String → String) (lookup : String → Option EffectLike)
    (s : Settings) (catalog : List (JsObj String)) :
    (initStatusEffects getId lookup s catalog).length =
      if s.modifyStatusEffects == "replace" then
        (s.statusEffectNames.filterMap lookup).length
      else if s.modifyStatusEffects == "add" then
        catalog.length + (s.statusEffectNames.filterMap lookup).length
      else catalog.length := by
  have hfetch : (fetchStatusEffects getId lookup s).length =
      (s.statusEffectNames.filterMap lookup).length := by
    unfold fetchStatusEffects
    by_cases h : s.statusEffectsSortOrder == "alphabetical"
    · simp only [h, if_true]
      rw [(jsStableSort_perm (keyLe defKey) _).length_eq]
      simp
    · simp [h]
  unfold initStatusEffects
  by_cases h1 : s.modifyStatusEffects == "replace"
  · simp [h1, hfetch]
  · by_cases h2 : s.modifyStatusEffects == "add"
    · simp [h1, h2, hfetch]
    · simp [h1, h2]

/-- Counterexample to claim C7 as stated: configuring the same name twice
yields a catalog with two entries carrying the same derived id — the later
duplicate is not discarded. -/
theorem c7_counterexample :
    (initStatusEffects getIdC lookupBA sC7 []).map (fun d => jsGet d "id") =
      [some "ce-Blinded", some "ce-Blinded"] ∧
    (initStatusEffects getIdC lookupBA sC7 []).length = 2 := by
  refine ⟨by decide, by decide⟩

/-! ## Lemmas about the status map and the choice fold -/

theorem jsGet_statusFold (f : Bool) (k : String) (ids : List String) (obj : JsObj StatusRec) :
    jsGet (ids.foldl (fun o i => jsSet o i ⟨i, f⟩) obj) k =
      if ids.contains k then some ⟨k, f⟩ else jsGet obj k := by
  induction ids generalizing obj with
  | nil => simp
  | cons i ids ih =>
      show jsGet (ids.foldl (fun o i => jsSet o i ⟨i, f⟩) (jsSet obj i ⟨i, f⟩)) k = _
      rw [ih (jsSet obj i ⟨i, f⟩)]
      by_cases hmem : k ∈ ids
      · simp [hmem]
      · by_cases hik : k = i
        · subst hik
          simp [hmem, jsGet_jsSet_self]
        · have hne : i ≠ k := fun hh => hik hh.symm
          rw [jsGet_jsSet_ne obj i k _ hne]
          simp [hmem, hik]

theorem jsGet_buildStatuses (effs : List ActorEffect) (k : String) :
    jsGet (buildStatuses effs) k =
      match lastStatusEff k effs with
      | some eff => some ⟨k, eff.overlayFlag⟩
      | none => none := by
  suffices h : ∀ (obj : JsObj StatusRec),
      jsGet (effs.foldl
        (fun obj eff => eff.statuses.foldl (fun o i => jsSet o i ⟨i, eff.overlayFlag⟩) obj)
        obj) k =
      match lastStatusEff k effs with
      | some eff => some ⟨k, eff.overlayFlag⟩
      | none => jsGet obj k by
    have := h []
    simpa [buildStatuses, jsGet] using this
  induction effs with
  | nil => intro obj; simp [lastStatusEff]
  | cons e effs ih =>
      intro obj
      show jsGet (effs.foldl _ (e.statuses.foldl (fun o i => jsSet o i ⟨i, e.overlayFlag⟩) obj)) k = _
      rw [ih]
      cases hl : lastStatusEff k effs with
      | some r => simp [lastStatusEff, hl]
      | none =>
          rw [jsGet_statusFold]
          by_cases hc : k ∈ e.statuses <;>
            simp [lastStatusEff, hl, hc]

theorem jsGet_foldl_choiceStep (loc : String → String) (st : JsObj StatusRec) (doc : TokenDoc)
    (l : List Candidate) (obj : JsObj StatusChoice) (k : String) :
    jsGet (l.foldl (choiceStep loc st doc) obj) k =
      if jsHas obj k then jsGet obj k
      else (firstWithKey k l).map (mkChoice loc st doc) := by
  induction l generalizing obj with
  | nil =>
      by_cases h : jsHas obj k
      · simp [h, firstWithKey]
      · have hg : jsGet obj k = none :=
          Option.not_isSome_iff_eq_none.mp (by simpa [jsHas] using h)
        simp [h, hg, firstWithKey]
  | cons e l ih =>
      show jsGet (l.foldl (choiceStep loc st doc) (choiceStep loc st doc obj e)) k = _
      rw [ih (choiceStep loc st doc obj e)]
      by_cases hc : jsHas obj (keyOf e)
      · have hstep : choiceStep loc st doc obj e = obj := by
          simp [choiceStep, hc]
        rw [hstep]
        by_cases hek : keyOf e == k
        · have hkk : keyOf e = k := by simpa [beq_iff_eq] using hek
          subst hkk
          simp [hc, firstWithKey, hek]
        · simp [firstWithKey, hek]
      · have hstep : choiceStep loc st doc obj e =
            jsSet obj (keyOf e) (mkChoice loc st doc e) := by
          simp [choiceStep, hc]
        rw [hstep]
        by_cases hek : keyOf e == k
        · have hkk : keyOf e = k := by simpa [beq_iff_eq] using hek
          subst hkk
          have hc2 : (jsGet obj (keyOf e)).isSome = false := by
            simpa [jsHas] using hc
          simp [jsHas, jsGet_jsSet_self, firstWithKey, hek, hc2]
        · have hne : keyOf e ≠ k := by simpa [beq_iff_eq] using hek
          rw [jsGet_jsSet_ne obj (keyOf e) k _ hne]
          have hhas : jsHas (jsSet obj (keyOf e) (mkChoice loc st doc e)) k = jsHas obj k := by
            simp [jsHas, jsGet_jsSet_ne obj (keyOf e) k _ hne]
          rw [hhas]
          simp [firstWithKey, hek]

theorem choices_getD (env : ChoicesEnv) (tok : TokenObj) (k : String)
    (h : (env.modifyStatusEffects == "none") = false) :
    builtGet (getStatusEffectChoices env tok) k =
      (firstWithKey k (candidatesOf env.catalog tok.document)).map
        (mkChoice env.localize (actorStatuses tok) tok.document) := by
  unfold getStatusEffectChoices
  rw [h]
  simp only [Bool.false_eq_true, if_false, builtGet]
  rw [jsGet_foldl_choiceStep]
  simp [jsHas, jsGet]

theorem firstWithKey_mem (k : String) (l : List Candidate) (e : Candidate)
    (h : firstWithKey k l = some e) : e ∈ l ∧ keyOf e = k := by
  induction l with
  | nil => simp [firstWithKey] at h
  | cons c l ih =>
      by_cases hc : keyOf c == k
      · have : c = e := by simpa [firstWithKey, hc] using h
        subst this
        exact ⟨List.mem_cons_self c l, by simpa [beq_iff_eq] using hc⟩
      · have h2 : firstWithKey k l = some e := by simpa [firstWithKey, hc] using h
        rcases ih h2 with ⟨hm, hk⟩
        exact ⟨List.mem_cons_of_mem c hm, hk⟩

theorem firstWithKey_append_cons (k : String) (l1 l2 : List Candidate) (e : Candidate)
    (h1 : ∀ c ∈ l1, keyOf c ≠ k) (h2 : keyOf e = k) :
    firstWithKey k (l1 ++ e :: l2) = some e := by
  induction l1 with
  | nil => simp [firstWithKey, h2]
  | cons c l1 ih =>
      have hc : (keyOf c == k) = false := by
        simpa [beq_iff_eq] using h1 c (List.mem_cons_self c l1)
      simp only [List.cons_append, firstWithKey, hc, Bool.false_eq_true, if_false]
      exact ih (fun c2 hm => h1 c2 (List.mem_cons_of_mem c hm))

theorem mkChoice_isActive_eq (loc : String → String) (st : JsObj StatusRec)
    (doc : TokenDoc) (e : Candidate) :
    (mkChoice loc st doc e).isActive =
      ((match jsGet st (keyOf e) with
        | some r => !(r.id == "")
        | none => false) || srcInList doc.effects (candSrc e)) := rfl

theorem mkChoice_isOverlay_eq (loc : String → String) (st : JsObj StatusRec)
    (doc : TokenDoc) (e : Candidate) :
    (mkChoice loc st doc e).isOverlay =
      ((match jsGet st (keyOf e) with
        | some r => r.overlay
        | none => false) || strictEqS doc.overlayEffect (candSrc e)) := rfl

theorem mkChoice_isActive_iff (loc : String → String) (st : JsObj StatusRec)
    (doc : TokenDoc) (e : Candidate) :
    (mkChoice loc st doc e).isActive = true ↔
      (∃ r : StatusRec, jsGet st (keyOf e) = some r ∧ r.id ≠ "") ∨
      (∃ s : String, candSrc e = some s ∧ s ∈ doc.effects) := by
  rw [mkChoice_isActive_eq]
  cases hst : jsGet st (keyOf e) <;> cases hsrc : candSrc e <;>
    simp [srcInList, bne_iff_ne]

theorem mkChoice_isOverlay_iff (loc : String → String) (st : JsObj StatusRec)
    (doc : TokenDoc) (e : Candidate) :
    (mkChoice loc st doc e).isOverlay = true ↔
      (∃ r : StatusRec, jsGet st (keyOf e) = some r ∧ r.overlay = true) ∨
      (∃ s : String, candSrc e = some s ∧ doc.overlayEffect = some s) := by
  rw [mkChoice_isOverlay_eq]
  cases hst : jsGet st (keyOf e) <;> cases hsrc : candSrc e <;>
    cases hov : doc.overlayEffect <;>
    simp [strictEqS]

theorem mkChoice_cssClass (loc : String → String) (st : JsObj StatusRec)
    (doc : TokenDoc) (e : Candidate) :
    (mkChoice loc st doc e).cssClass =
      if (mkChoice loc st doc e).isActive then
        (if (mkChoice loc st doc e).isOverlay then "active overlay" else "active")
      else
        (if (mkChoice loc st doc e).isOverlay then "overlay" else "") := by
  have h1 : (mkChoice loc st doc e).cssClass =
      String.intercalate " "
        ((if (mkChoice loc st doc e).isActive then ["active"] else []) ++
          (if (mkChoice loc st doc e).isOverlay then ["overlay"] else [])) := rfl
  rw [h1]
  cases hA : (mkChoice loc st doc e).isActive <;>
    cases hB : (mkChoice loc st doc e).isOverlay <;> decide

theorem lastStatusEff_append (i : String) (l1 l2 : List ActorEffect) :
    lastStatusEff i (l1 ++ l2) =
      match lastStatusEff i l2 with
      | some r => some r
      | none => lastStatusEff i l1 := by
  induction l1 with
  | nil => cases h2 : lastStatusEff i l2 <;> simp [lastStatusEff, h2]
  | cons e l1 ih =>
      show lastStatusEff i (e :: (l1 ++ l2)) = _
      cases h2 : lastStatusEff i l2 with
      | some r => simp [lastStatusEff, ih, h2]
      | none => simp [lastStatusEff, ih, h2]

theorem lastStatusEff_eq_none (i : String) (l : List ActorEffect)
    (h : ∀ c ∈ l, i ∉ c.statuses) : lastStatusEff i l = none := by
  induction l with
  | nil => rfl
  | cons e l ih =>
      have he : i ∉ e.statuses := h e (List.mem_cons_self e l)
      have hl : lastStatusEff i l = none := ih (fun c hc => h c (List.mem_cons_of_mem e hc))
      simp [lastStatusEff, hl, he]

/-- Claim C3 (amended): for the first candidate carrying a given fold key,
the resulting choice has isActive true exactly when the active-status lookup
at the candidate's key (its id, or "undefined" when it has none) yields a
record with a NON-EMPTY id, or the token document's effect list contains the
candidate's icon reference; and isOverlay true exactly when that lookup
yields a record whose overlay flag is set, or the token document's overlay
effect equals the candidate's icon reference; the css class is the
space-joined pair of the two flags. -/
theorem c3_active_overlay (env : ChoicesEnv) (tok : TokenObj) (k : String) (e : Candidate)
    (hmode : (env.modifyStatusEffects == "none") = false)
    (hfirst : firstWithKey k (candidatesOf env.catalog tok.document) = some e) :
    ∃ c : StatusChoice,
      builtGet (getStatusEffectChoices env tok) k = some c ∧
      (c.isActive = true ↔
        (∃ r : StatusRec, jsGet (actorStatuses tok) (keyOf e) = some r ∧ r.id ≠ "") ∨
        (∃ s : String, candSrc e = some s ∧ s ∈ tok.document.effects)) ∧
      (c.isOverlay = true ↔
        (∃ r : StatusRec, jsGet (actorStatuses tok) (keyOf e) = some r ∧ r.overlay = true) ∨
        (∃ s : String, candSrc e = some s ∧ tok.document.overlayEffect = some s)) ∧
      c.cssClass =
        (if c.isActive then (if c.isOverlay then "active overlay" else "active")
         else (if c.isOverlay then "overlay" else "")) := by
  refine ⟨mkChoice env.localize (actorStatuses tok) tok.document e, ?_, ?_, ?_, ?_⟩
  · rw [choices_getD env tok k hmode, hfirst]
    rfl
  · exact mkChoice_isActive_iff _ _ _ _
  · exact mkChoice_isOverlay_iff _ _ _ _
  · exact mkChoice_cssClass _ _ _ _

/-- Witness for C3 at the blinded example: the actor declares status id
"blinded" with overlay flag true, and the derived choice is active, overlay,
with css class "active overlay". -/
theorem c3_witness :
    (∃ c : StatusChoice,
      builtGet (getStatusEffectChoices envB tokB) "blinded" = some c ∧
      (c.isActive = true ↔
        (∃ r : StatusRec, jsGet (actorStatuses tokB) (keyOf candB) = some r ∧ r.id ≠ "") ∨
        (∃ s : String, candSrc candB = some s ∧ s ∈ tokB.document.effects)) ∧
      (c.isOverlay = true ↔
        (∃ r : StatusRec, jsGet (actorStatuses tokB) (keyOf candB) = some r ∧ r.overlay = true) ∨
        (∃ s : String, candSrc candB = some s ∧ tokB.document.overlayEffect = some s)) ∧
      c.cssClass =
        (if c.isActive then (if c.isOverlay then "active overlay" else "active")
         else (if c.isOverlay then "overlay" else ""))) ∧
    builtGet (getStatusEffectChoices envB tokB) "blinded" =
      some ⟨"blinded", some "EFFECT.Blinded", some "icons/svg/blind.svg", true, true,
        "active overlay"⟩ :=
  ⟨c3_active_overlay envB tokB "blinded" candB (by decide) (by decide), by decide⟩

/-- Counterexample to claim C3 as stated: an actor effect declaring the
EMPTY status id yields a matching active-status record for the candidate
with id "", yet the derived choice is NOT active — the code tests the
truthiness of the record's id, and the empty string is falsy. -/
theorem c3_counterexample :
    jsGet (actorStatuses tokC3) (keyOf (Candidate.obj [("id", "")])) = some ⟨"", false⟩ ∧
    (builtGet (getStatusEffectChoices envC3 tokC3) "").map StatusChoice.isActive = some false ∧
    tokC3.document.effects = [] := by
  refine ⟨by decide, by decide, rfl⟩

/-- Claim C4 (amended): in the fold, only the first candidate whose LOOKUP
KEY (its id, coerced to "undefined" when absent) equals a given key appears
in the result; every later candidate with the same key — in particular
every later candidate sharing the same id — is dropped, and its presence
does not change the stored choice. -/
theorem c4_first_wins (env : ChoicesEnv) (tok : TokenObj) (i : String)
    (e1 e2 : Candidate) (l1 l2 : List Candidate)
    (hmode : (env.modifyStatusEffects == "none") = false)
    (hdecomp : candidatesOf env.catalog tok.document = l1 ++ e1 :: l2)
    (hfirst : ∀ c ∈ l1, keyOf c ≠ i)
    (hid1 : candId e1 = some i)
    (hmem2 : e2 ∈ l2) (hid2 : candId e2 = some i) :
    builtGet (getStatusEffectChoices env tok) i =
      some (mkChoice env.localize (actorStatuses tok) tok.document e1) := by
  rw [choices_getD env tok i hmode, hdecomp,
    firstWithKey_append_cons i l1 l2 e1 hfirst (by simp [keyOf, hid1])]
  rfl

/-- Witness for C4: two catalog entries share the id "blinded" with
different icons; the mapping holds the first entry's choice (icon "a.png"). -/
theorem c4_witness :
    builtGet (getStatusEffectChoices envDup tokPlain) "blinded" =
      some ⟨"blinded", none, some "a.png", false, false, ""⟩ := by
  have h := c4_first_wins envDup tokPlain "blinded"
    (Candidate.obj [("id", "blinded"), ("icon", "a.png")])
    (Candidate.obj [("id", "blinded"), ("icon", "b.png")])
    [] [Candidate.obj [("id", "blinded"), ("icon", "b.png")]]
    (by decide) (by decide) (by intro c hc; simp at hc) (by decide)
    (by simp) (by decide)
  rw [h]
  decide

/-- Counterexample to claim C4 as stated: two candidates share the literal
id "undefined", yet neither appears in the result — an earlier id-LESS
candidate occupies the key "undefined" through the property-key coercion,
so the first occurrence of the shared id is not the entry stored. -/
theorem c4_counterexample :
    candId (Candidate.obj [("id", "undefined"), ("icon", "a.png")]) = some "undefined" ∧
    candId (Candidate.obj [("id", "undefined"), ("icon", "b.png")]) = some "undefined" ∧
    candidatesOf envC4.catalog tokPlain.document =
      [Candidate.obj [("name", "NoId")],
        Candidate.obj [("id", "undefined"), ("icon", "a.png")],
        Candidate.obj [("id", "undefined"), ("icon", "b.png")]] ∧
    builtGet (getStatusEffectChoices envC4 tokPlain) "undefined" =
      some (mkChoice envC4.localize (actorStatuses tokPlain) tokPlain.document
        (Candidate.obj [("name", "NoId")])) ∧
    builtGet (getStatusEffectChoices envC4 tokPlain) "undefined" ≠
      some (mkChoice envC4.localize (actorStatuses tokPlain) tokPlain.document
        (Candidate.obj [("id", "undefined"), ("icon", "a.png")])) := by
  refine ⟨by decide, by decide, by decide, by decide, by decide⟩

/-- Claim C5 (amended): every key of the returned mapping is the id of some
candidate, or the fixed coercion string "undefined" produced by a candidate
that has no id (as every raw icon-path entry of the token document's effect
list has none); keys are never taken from the icon-source string. -/
theorem c5_keys_from_ids (env : ChoicesEnv) (tok : TokenObj) (k : String) (c : StatusChoice)
    (hmode : (env.modifyStatusEffects == "none") = false)
    (hget : builtGet (getStatusEffectChoices env tok) k = some c) :
    ∃ e ∈ candidatesOf env.catalog tok.document,
      keyOf e = k ∧ (candId e = some k ∨ (candId e = none ∧ k = "undefined")) := by
  rw [choices_getD env tok k hmode] at hget
  cases hf : firstWithKey k (candidatesOf env.catalog tok.document) with
  | none => rw [hf] at hget; simp at hget
  | some e =>
      rcases firstWithKey_mem k _ e hf with ⟨hmem, hkey⟩
      refine ⟨e, hmem, hkey, ?_⟩
      cases hid : candId e with
      | some s =>
          left
          rw [← hkey]
          simp [keyOf, hid]
      | none =>
          right
          exact ⟨rfl, by rw [← hkey]; simp [keyOf, hid]⟩

/-- Witness for C5: the key "blinded" of the duplicate-catalog mapping comes
from a candidate whose id is "blinded". -/
theorem c5_witness :
    ∃ e ∈ candidatesOf envDup.catalog tokPlain.document,
      keyOf e = "blinded" ∧
      (candId e = some "blinded" ∨ (candId e = none ∧ "blinded" = "undefined")) :=
  c5_keys_from_ids envDup tokPlain "blinded"
    ⟨"blinded", none, some "a.png", false, false, ""⟩ (by decide) (by decide)

/-- Counterexample to claim C5 as stated: a raw token-document effect
"p.png" has no canonical id at all; it is stored under the key "undefined"
(not under any id of its own, though also not under its icon path). -/
theorem c5_counterexample :
    builtGet (getStatusEffectChoices envC5 tokC5) "undefined" =
      some ⟨"", none, some "p.png", true, false, "active"⟩ ∧
    builtGet (getStatusEffectChoices envC5 tokC5) "p.png" = none ∧
    candId (Candidate.raw "p.png") = none := by
  refine ⟨by decide, by decide, by decide⟩

/-- Claim C9: for every icon element of the HUD status container, the
refresher looks its status up by the identifier in the icon's own dataset
and sets the "overlay" and "active" classes to exactly the looked-up
isOverlay and isActive; an icon whose dataset identifier misses the mapping
gets both classes set to false.  The icon's identifier is left unchanged. -/
theorem c9_refresh_classes (choices : JsObj StatusChoice) (icons : List IconEl)
    (i : Nat) (img : IconEl) (h : icons[i]? = some img) :
    ∃ out : IconEl, (refreshStatusIcons choices icons)[i]? = some out ∧
      out.statusId = img.statusId ∧
      (∀ st : StatusChoice, jsGet choices img.statusId = some st →
        out.overlayClass = st.isOverlay ∧ out.activeClass = st.isActive) ∧
      (jsGet choices img.statusId = none →
        out.overlayClass = false ∧ out.activeClass = false) := by
  unfold refreshStatusIcons
  rw [List.getElem?_map, h]
  refine ⟨_, rfl, rfl, ?_, ?_⟩
  · intro st hst
    constructor <;> simp [hst]
  · intro hst
    constructor <;> simp [hst]

/-- Witness for C9: one icon matching the mapping is toggled to its status
flags, one icon with no matching key is reset to neither class. -/
theorem c9_witness :
    refreshStatusIcons choices9 icons9 =
      [⟨"blinded", true, true⟩, ⟨"dead", false, false⟩] ∧
    (∃ out : IconEl, (refreshStatusIcons choices9 icons9)[0]? = some out ∧
      out.statusId = (⟨"blinded", false, false⟩ : IconEl).statusId ∧
      (∀ st : StatusChoice,
        jsGet choices9 (⟨"blinded", false, false⟩ : IconEl).statusId = some st →
        out.overlayClass = st.isOverlay ∧ out.activeClass = st.isActive) ∧
      (jsGet choices9 (⟨"blinded", false, false⟩ : IconEl).statusId = none →
        out.overlayClass = false ∧ out.activeClass = false)) :=
  ⟨by decide, c9_refresh_classes choices9 icons9 0 ⟨"blinded", false, false⟩ (by decide)⟩

/-- Claim C10: in the per-actor active-status map, when several of the
actor's effects declare the same status identifier, the stored record
carries the overlay flag of the LAST such effect in effect-list order —
later effects overwrite earlier ones. -/
theorem c10_last_overlay_wins (tok : TokenObj) (a : ActorRef) (i : String)
    (la lb lc : List ActorEffect) (ea eb : ActorEffect)
    (hactor : tok.actor = some a)
    (hdecomp : a.effects = la ++ ea :: (lb ++ eb :: lc))
    (hea : i ∈ ea.statuses) (heb : i ∈ eb.statuses)
    (hlc : ∀ c ∈ lc, i ∉ c.statuses) :
    jsGet (actorStatuses tok) i = some ⟨i, eb.overlayFlag⟩ := by
  have h1 : actorStatuses tok = buildStatuses a.effects := by
    simp [actorStatuses, hactor]
  have hlcn : lastStatusEff i lc = none := lastStatusEff_eq_none i lc hlc
  have h3 : lastStatusEff i (eb :: lc) = some eb := by
    simp [lastStatusEff, hlcn, heb]
  have h4 : lastStatusEff i (lb ++ eb :: lc) = some eb := by
    rw [lastStatusEff_append, h3]
  have h5 : lastStatusEff i (ea :: (lb ++ eb :: lc)) = some eb := by
    simp [lastStatusEff, h4]
  rw [h1, jsGet_buildStatuses, hdecomp, lastStatusEff_append, h5]

/-- Witness for C10: two actor effects both declare "blinded", the first
with overlay false and the second with overlay true; the stored record has
overlay true, from the later effect. -/
theorem c10_witness :
    jsGet (actorStatuses tok10) "blinded" = some ⟨"blinded", true⟩ :=
  c10_last_overlay_wins tok10 ⟨[⟨["blinded"], false⟩, ⟨["blinded"], true⟩]⟩ "blinded"
    [] [] [] ⟨["blinded"], false⟩ ⟨["blinded"], true⟩
    rfl rfl (by simp) (by simp) (by simp)
